import Mathlib

/-!
Shallow embedding of the MCQ generation / validation / translation pipeline
of `backend/app/mcq_generator.py` (Quillium).

Python strings are modelled as Lean `String`; Python string primitives
(`strip`, `lower`, `split`, `in`, slicing) are re-implemented below over
`String.data` (lists of characters) so that every definition is executable
and reduces in the kernel.  The external LLM provider is modelled as an
oracle parameter: each network call's outcome (exception / parse failure /
parsed value) is an explicit argument, universally quantified in theorems.
Raw decoded JSON MCQ objects are modelled as `MCQDict`, a record of four
optional fields (a missing key = `none`).
-/

namespace Quillium

/-- `isPref n h` : the char list `n` occurs at the start of `h`
(Python `h.startswith(n)` on char lists). -/
def isPref : List Char → List Char → Bool
  | [], _ => true
  | _ :: _, [] => false
  | a :: as, b :: bs => a == b && isPref as bs

/-- `hasSubAux n h` : the char list `n` occurs contiguously somewhere in `h`. -/
def hasSubAux (n : List Char) : List Char → Bool
  | [] => isPref n []
  | c :: rest => isPref n (c :: rest) || hasSubAux n rest

/-- Python `needle in hay` (substring containment). -/
def strContains (hay needle : String) : Bool :=
  hasSubAux needle.data hay.data

/-- ASCII lowercase of one character (model of Python `str.lower` per char). -/
def charLower (c : Char) : Char :=
  if 'A' ≤ c ∧ c ≤ 'Z' then Char.ofNat (c.toNat + 32) else c

/-- Model of Python `str.lower()` (ASCII range). -/
def pyLower (s : String) : String :=
  String.mk (s.data.map charLower)

/-- Characters treated as whitespace by Python `str.strip()` / `str.split()`. -/
def isWsChar (c : Char) : Bool :=
  c == ' ' || c == '\t' || c == '\n' || c == '\r' || c == '\x0b' || c == '\x0c'

/-- Model of Python `str.strip()`: drop leading and trailing whitespace. -/
def pyStrip (s : String) : String :=
  String.mk (((s.data.dropWhile isWsChar).reverse.dropWhile isWsChar).reverse)

/-- Model of Python slicing `s[:n]` (by code point). -/
def pyTake (s : String) (n : Nat) : String :=
  String.mk (s.data.take n)

/-- `splitChars p l` splits `l` at every character satisfying `p`, keeping
empty fragments (Python `re.split` on a single-character class). -/
def splitChars (p : Char → Bool) : List Char → List (List Char)
  | [] => [[]]
  | c :: rest =>
    if p c then [] :: splitChars p rest
    else
      match splitChars p rest with
      | [] => [[c]]
      | w :: ws => (c :: w) :: ws

/-- Python `s.split(chars)`-style split of a string on a character predicate. -/
def pySplit (s : String) (p : Char → Bool) : List String :=
  (splitChars p s.data).map String.mk

/-- Python `s.split()` (no argument): whitespace-separated words. -/
def splitWords (s : String) : List String :=
  (pySplit s isWsChar).filter (fun w => w ≠ "")

/-- Python `s.startswith(p)`. -/
def pyStarts (s p : String) : Bool :=
  isPref p.data s.data

/-- Python `s.endswith(p)`. -/
def pyEnds (s p : String) : Bool :=
  isPref p.data.reverse s.data.reverse

/-- Python `s[:-n]` for `n ≤ len s` (drop the last `n` code points). -/
def pyDropRight (s : String) (n : Nat) : String :=
  String.mk (s.data.take (s.data.length - n))

/-- A decoded JSON MCQ object: each Python dict key is an optional field
(`none` = key absent).  `options` is assumed to be a JSON array of strings. -/
structure MCQDict where
  question : Option String
  answer : Option String
  options : Option (List String)
  difficulty : Option String
deriving DecidableEq

instance : Inhabited MCQDict := ⟨⟨none, none, none, none⟩⟩

/-- The fixed denylist of vague-distractor phrases (`vague_terms` in
`validate_mcq`). -/
def vagueTerms : List String :=
  ["wrong", "incorrect", "not correct", "false", "invalid",
   "different concept", "alternative perspective", "common misconception",
   "broader interpretation", "related but different", "someone else",
   "not this", "other answer", "another option"]

/-- `any(term in opt_lower for term in vague_terms)` for an option string. -/
def containsVague (s : String) : Bool :=
  vagueTerms.any (fun t => strContains (pyLower s) t)

/-- The option-cleaning loop of `validate_mcq` (lines 329-356): state is
`(cleaned_options, seen)`, with `seen` the list of lowercase forms already
kept, in insertion order. -/
def cleanOptions : List String → List String × List String → List String × List String
  | [], st => st
  | opt :: rest, st =>
    let optStr := pyStrip opt
    if optStr = "" then cleanOptions rest st
    else if containsVague optStr then cleanOptions rest st
    else if pyLower optStr ∈ st.2 then cleanOptions rest st
    else cleanOptions rest (st.1 ++ [optStr], st.2 ++ [pyLower optStr])

/-- `people` pool in `generate_meaningful_filler`. -/
def fillerPeople : List String :=
  ["Alan Turing", "Isaac Newton", "Marie Curie", "Charles Darwin"]

/-- `capitals` pool in `generate_meaningful_filler`. -/
def fillerCapitals : List String :=
  ["London", "Berlin", "Tokyo", "Beijing"]

/-- `years` pool in `generate_meaningful_filler`. -/
def fillerYears : List String :=
  ["1945", "1969", "1776", "2001"]

/-- `generic` pool in `generate_meaningful_filler`. -/
def fillerGeneric : List String :=
  ["A related concept from the same field",
   "An important but different aspect",
   "A frequently confused alternative",
   "A similar but distinct element"]

/-- `generate_meaningful_filler(question, answer, index)` (lines 387-410). -/
def generate_meaningful_filler (question answer : String) (index : Nat) : String :=
  let ql := pyLower question
  if pyStarts ql "who" then
    fillerPeople.getD (index % fillerPeople.length) ""
  else if strContains ql "capital" then
    fillerCapitals.getD (index % fillerCapitals.length) ""
  else if ["year", "when", "date"].any (fun t => strContains ql t) then
    fillerYears.getD (index % fillerYears.length) ""
  else
    fillerGeneric.getD (index % fillerGeneric.length) ""

/-- The `while len(cleaned_options) < 4` filler loop of `validate_mcq`
(lines 359-364), with explicit fuel.  `none` means the fuel ran out with
the guard still true (the Python loop has not terminated after that many
iterations).  One iteration either appends the synthesized filler (when its
lowercase form is new) or leaves the state unchanged. -/
def fillLoop (question answer : String) : Nat → List String × List String → Option (List String × List String)
  | 0, st => if st.1.length < 4 then none else some st
  | n + 1, st =>
    if st.1.length < 4 then
      let filler := generate_meaningful_filler question answer st.1.length
      if pyLower filler ∈ st.2 then fillLoop question answer n st
      else fillLoop question answer n (st.1 ++ [filler], st.2 ++ [pyLower filler])
    else some st

/-- Answer resolution against the raw options (lines 317-327): exact match
kept; else first case-insensitive match promoted; else `options[0]`. -/
def resolveAnswer (answer : String) (options : List String) : String :=
  if answer ∈ options then answer
  else
    match options.find? (fun opt => pyLower opt == pyLower answer) with
    | some opt => opt
    | none => options.getD 0 ""

/-- Difficulty normalization (lines 370-378): keep a canonical label, else
recompute from the word-count heuristic on question plus resolved answer. -/
def deriveDifficulty (difficulty0 question answer : String) : String :=
  if difficulty0 ∈ (["easy", "medium", "hard"] : List String) then difficulty0
  else
    let totalWords := (splitWords question).length + (splitWords answer).length
    if totalWords < 20 then "easy"
    else if totalWords < 40 then "medium"
    else "hard"

/-- `validate_mcq(mcq)` (lines 299-385).  Result: `some none` = rejected as
invalid (Python `None`), `some (some m)` = accepted with normalized record
`m`, `none` = the filler `while` loop did not terminate within the fuel
(the Python code hangs; see `fillLoop`).  Fuel 8 is sufficient for every
terminating run: an iteration that makes no progress repeats forever, and a
progressing run adds at most 4 options. -/
def validate_mcq (mcq : MCQDict) : Option (Option MCQDict) :=
  let question := pyStrip (mcq.question.getD "")
  let answer0 := pyStrip (mcq.answer.getD "")
  let options := mcq.options.getD []
  if question = "" ∨ answer0 = "" ∨ options = [] then some none
  else if options.length < 4 then some none
  else
    let answer1 := resolveAnswer answer0 options
    match fillLoop question answer1 8 (cleanOptions options ([], [])) with
    | none => none
    | some (cleaned2, _) =>
      let answer2 := if answer1 ∈ cleaned2 then answer1 else cleaned2.getD 0 ""
      some (some
        { question := some question
          answer := some answer2
          options := some (cleaned2.take 4)
          difficulty := some (deriveDifficulty (pyLower (pyStrip (mcq.difficulty.getD "medium"))) question answer2) })

/-- The validation loop of `generate_english_mcqs` (lines 150-156) over the
parsed array: accepted items are kept in order, invalid items are dropped,
and a diverging `validate_mcq` call makes the whole run diverge (`none`). -/
def validateLoop : List MCQDict → Option (List MCQDict)
  | [] => some []
  | m :: rest =>
    match validate_mcq m with
    | none => none
    | some none => validateLoop rest
    | some (some v) => (validateLoop rest).map (fun l => v :: l)

/-- `generate_english_mcqs(text, max_questions, api_key)` (lines 88-162),
with the provider call, sanitizer and JSON parse abstracted into the oracle
`resp`: `.error ()` models any exception or JSON-decode failure on that path
(the function then returns `[]`), `.ok raws` models a successfully parsed
JSON array of raw MCQ objects.  Note the cap `mcqs[:max_questions]` is
applied to the raw array *before* validation. -/
def generate_english_mcqs (resp : Except Unit (List MCQDict)) (maxQuestions : Nat) : Option (List MCQDict) :=
  match resp with
  | .error _ => some []
  | .ok raws => validateLoop (raws.take maxQuestions)

/-- The items the Validator accepts, in order (the spec's reading of the
English Generator's post-parse phase: validate every element, drop
invalid ones). -/
def acceptedOf (l : List MCQDict) : List MCQDict :=
  l.filterMap (fun m =>
    match validate_mcq m with
    | some (some v) => some v
    | _ => none)

/-- Outcome of one per-item translation call in
`translate_mcqs_to_language`: the call raised, the response failed to parse
as JSON, or it parsed to the given object. -/
inductive ItemResp where
  | raise : ItemResp
  | parseFail : ItemResp
  | parsed : MCQDict → ItemResp
deriving DecidableEq

/-- Per-item body of the translation loop (lines 181-251): on exception or
parse failure keep the English original; on parse success require the
`question`/`answer`/`options` keys, then keep the translated object only
when its question differs case-insensitively from the original (a missing
original question raises in Python and is caught per item, falling back to
the original). -/
def translateItem (mcq : MCQDict) (r : ItemResp) : MCQDict :=
  match r with
  | .raise => mcq
  | .parseFail => mcq
  | .parsed t =>
    if t.question.isSome ∧ t.answer.isSome ∧ t.options.isSome then
      match mcq.question, t.question with
      | some oq, some tq => if pyLower oq = pyLower tq then mcq else t
      | _, _ => mcq
    else mcq

/-- The sequential per-item translation loop, consuming one oracle response
per index. -/
def translateLoop (oracle : Nat → ItemResp) : Nat → List MCQDict → List MCQDict
  | _, [] => []
  | idx, m :: rest => translateItem m (oracle idx) :: translateLoop oracle (idx + 1) rest

/-- `translate_mcqs_to_language(english_mcqs, target_lang, api_key)`
(lines 164-277).  `oracle i` is the outcome of the call for item `i`;
`batchFail` models an exception before the loop (e.g. in `genai.configure`),
which returns the English list unchanged via the outer handler. -/
def translate_mcqs_to_language (english_mcqs : List MCQDict) (target_lang : String)
    (oracle : Nat → ItemResp) (batchFail : Bool) : List MCQDict :=
  if pyLower target_lang = "english" ∨ english_mcqs = [] then english_mcqs
  else if batchFail then english_mcqs
  else translateLoop oracle 0 english_mcqs

/-- The sentence fragments kept by `generate_fallback_mcqs` (line 416):
split on `.`/`!`/`?`, strip each fragment, keep those longer than 20
characters. -/
def fallbackSentences (text : String) : List String :=
  ((pySplit text (fun c => c == '.' || c == '!' || c == '?')).map pyStrip).filter
    (fun s => s.length > 20)

/-- One fallback MCQ built from a kept fragment (lines 420-434): the
question embeds the fragment truncated to 100 characters, the answer and
first option are the full fragment, the other options are fixed phrases. -/
def mkFallbackMCQ (s : String) : MCQDict :=
  let sQ := if s.length > 100 then pyTake s 100 ++ "..." else s
  { question := some ("What is the main idea of: '" ++ sQ ++ "'?")
    answer := some s
    options := some [s, "A different concept from the text",
                     "An alternative interpretation", "Related information"]
    difficulty := some "medium" }

/-- `generate_fallback_mcqs(text, max_questions)` (lines 412-436). -/
def generate_fallback_mcqs (text : String) (max_questions : Nat) : List MCQDict :=
  ((((fallbackSentences text).take max_questions).map mkFallbackMCQ).take max_questions)

/-- The text preprocessing at the top of `make_mcqs` (lines 24-32): strip,
then truncate over-6000-character text with a marker. -/
def processText (text : String) : String :=
  let t := pyStrip text
  if t.length > 6000 then pyTake t 6000 ++ "... [text truncated]" else t

/-- `make_mcqs(text, language, max_questions)` (lines 16-86).  `hasKey`
models the presence of `GEMINI_API_KEY`; `genResp` is the English
generation oracle (see `generate_english_mcqs`); `tOracle`/`tBatchFail`
are the translation oracles.  Result `none` = the validator's filler loop
hung (the Python call never returns). -/
def make_mcqs (text : String) (language : String) (max_questions : Nat)
    (hasKey : Bool) (genResp : Except Unit (List MCQDict))
    (tOracle : Nat → ItemResp) (tBatchFail : Bool) : Option (List MCQDict) :=
  let t := pyStrip text
  if t.length < 50 then some []
  else
    let text2 := processText text
    if ¬ hasKey then some (generate_fallback_mcqs text2 max_questions)
    else
      match generate_english_mcqs genResp max_questions with
      | none => none
      | some english =>
        if english = [] then some (generate_fallback_mcqs text2 max_questions)
        else if pyLower language = "english" then some (english.take max_questions)
        else
          let translated := translate_mcqs_to_language english language tOracle tBatchFail
          if translated ≠ [] then some (translated.take max_questions)
          else some (english.take max_questions)

/-- `banned_phrases` in `generate_short_form_script` (lines 487-498). -/
def bannedPhrases : List String :=
  ["calm reminder", "picture", "picture this", "why it matters",
   "take a breath", "walking beside you", "imagine", "remember",
   "calm", "reminder"]

/-- `_sanitize_plain_text_script(raw_text)` (lines 581-593): strip, remove a
leading code fence with optional language tag and a trailing fence, remove
one layer of surrounding double quotes, collapse whitespace runs to single
spaces.  (Each branch re-strips, so the final collapse of `\s+` runs equals
joining the whitespace-separated words with single spaces.) -/
def sanitize_plain_text_script (raw_text : Option String) : String :=
  match raw_text with
  | none => ""
  | some raw =>
    let text := pyStrip raw
    let text :=
      if pyStarts text "```" then
        let t1 := pyStrip (String.mk ((text.data.drop 3).dropWhile Char.isAlpha))
        if pyEnds t1 "```" then pyStrip (pyDropRight t1 3) else t1
      else text
    let text :=
      if pyStarts text "\"" ∧ pyEnds text "\"" ∧ text.length > 1 then
        pyStrip (pyDropRight (String.mk (text.data.drop 1)) 1)
      else text
    String.intercalate " " (splitWords text)

/-- `_build_fallback_short_script(topic)` (lines 595-601). -/
def build_fallback_short_script (topic : String) : String :=
  let safe_topic := if topic = "" then "this topic" else topic
  "Error: Unable to generate a Quillium Shorts narration for '" ++ safe_topic ++
    "' right now. Please try again in a moment."

/-- The acceptance test applied to a sanitized script in
`generate_short_form_script` (lines 520-529): non-empty, contains the
normalized topic case-insensitively, 120-180 words inclusive, and no banned
phrase. -/
def scriptPasses (ntopic script : String) : Bool :=
  script ≠ "" &&
  strContains (pyLower script) (pyLower ntopic) &&
  (120 ≤ (splitWords script).length && (splitWords script).length ≤ 180) &&
  !(bannedPhrases.any (fun p => strContains (pyLower script) p))

/-- `generate_short_form_script(topic)` (lines 475-555).  `r1`/`r2` are the
outcomes of the first (default) and second (strict) generation calls:
`.error ()` = the call raised (caught by the outer handler, returning the
fallback message), `.ok raw` = the raw response text (`none` models a null
`response.text`).  The loop issues the second, strict attempt only after
the first is rejected, and returns the fallback message after two
rejections.  The whole function raises only for a whitespace-only topic
(Python `ValueError`, modelled as `.error ()`). -/
def generate_short_form_script (hasKey : Bool) (r1 r2 : Except Unit (Option String))
    (topic : String) : Except Unit String :=
  let ntopic := pyStrip topic
  if ntopic = "" then .error ()
  else
    let errMsg := build_fallback_short_script ntopic
    if ¬ hasKey then .ok errMsg
    else
      match r1 with
      | .error _ => .ok errMsg
      | .ok raw1 =>
        let s1 := sanitize_plain_text_script raw1
        if scriptPasses ntopic s1 then .ok s1
        else
          match r2 with
          | .error _ => .ok errMsg
          | .ok raw2 =>
            let s2 := sanitize_plain_text_script raw2
            if scriptPasses ntopic s2 then .ok s2 else .ok errMsg

/-! ### Helper lemmas -/

theorem fillLoop_done (q a : String) (n : Nat) (st : List String × List String)
    (h : ¬ st.1.length < 4) : fillLoop q a n st = some st := by
  cases n with
  | zero => simp only [fillLoop, if_neg h]
  | succ k => simp only [fillLoop, if_neg h]

/-! ### C1 -/

/-- Raw MCQ with five clean options whose answer is the fifth. -/
def rawC1 : MCQDict :=
  ⟨some "Sample question?", some "E5", some ["O1", "O2", "O3", "O4", "E5"], none⟩

/-- C1: for raw MCQs with at least 4 raw options that `validate_mcq`
accepts, the claim says the returned `answer` is always a member of the
returned (exactly-4) `options`.  The code checks membership against the
un-truncated cleaned list and then truncates to 4, so with five surviving
options and the answer in fifth position the returned answer lies outside
the returned options: the claim fails on the code. -/
theorem validate_mcq_answer_outside_returned_options :
    validate_mcq rawC1 =
      some (some ⟨some "Sample question?", some "E5", some ["O1", "O2", "O3", "O4"], some "medium"⟩) ∧
    "E5" ∉ (["O1", "O2", "O3", "O4"] : List String) := by
  exact ⟨by decide, by decide⟩

/-! ### C2 -/

/-- Raw MCQ on which the filler loop of `validate_mcq` never terminates:
after cleaning, options are `["Isaac Newton", "Charles Darwin"]`; the loop
adds `"Marie Curie"` (index 2), then index 3 synthesizes
`"Charles Darwin"`, which is already present, and the index never
advances. -/
def rawC2 : MCQDict :=
  ⟨some "Who discovered gravity?", some "Isaac Newton",
   some ["Isaac Newton", "Charles Darwin", "wrong answer", "false claim"], some "easy"⟩

/-- C2: the claim says `validate_mcq` terminates on every input.  On
`rawC2` the embedded filler loop is stuck (the synthesized filler for the
current length is already present case-insensitively, and skipping does not
advance the length), so no amount of fuel completes it: the Python
`while len(cleaned_options) < 4` loop runs forever. -/
theorem validate_mcq_filler_loop_diverges :
    validate_mcq rawC2 = none ∧
    ∀ n, fillLoop "Who discovered gravity?" "Isaac Newton" n
      (["Isaac Newton", "Charles Darwin", "Marie Curie"],
       ["isaac newton", "charles darwin", "marie curie"]) = none := by
  refine ⟨by decide, ?_⟩
  intro n
  induction n with
  | zero => rfl
  | succ k ih =>
    have hstep : fillLoop "Who discovered gravity?" "Isaac Newton" (k + 1)
        (["Isaac Newton", "Charles Darwin", "Marie Curie"],
         ["isaac newton", "charles darwin", "marie curie"]) =
        fillLoop "Who discovered gravity?" "Isaac Newton" k
        (["Isaac Newton", "Charles Darwin", "Marie Curie"],
         ["isaac newton", "charles darwin", "marie curie"]) := rfl
    rw [hstep]
    exact ih

/-! ### C6 -/

/-- C6: Translator identity law — for every MCQ list and every oracle
(hence with no dependence on any provider call), a target language whose
lowercase form is `"english"` returns the input list unchanged. -/
theorem translate_identity_on_english (mcqs : List MCQDict) (target : String)
    (oracle : Nat → ItemResp) (batchFail : Bool)
    (h : pyLower target = "english") :
    translate_mcqs_to_language mcqs target oracle batchFail = mcqs := by
  unfold translate_mcqs_to_language
  rw [if_pos (Or.inl h)]

/-- Sample already-valid MCQ used as a concrete input in several witnesses. -/
def rawParis : MCQDict :=
  ⟨some "What is the capital of France?", some "Paris",
   some ["Paris", "London", "Berlin", "Tokyo"], some "easy"⟩

theorem translate_identity_on_english_witness :
    pyLower "ENGLISH" = "english" ∧
    translate_mcqs_to_language [rawParis] "ENGLISH" (fun _ => ItemResp.raise) false = [rawParis] :=
  ⟨by decide, translate_identity_on_english [rawParis] "ENGLISH" (fun _ => ItemResp.raise) false (by decide)⟩

/-! ### C9 -/

/-- C9: the Fallback Generator returns exactly `min max_questions N` MCQs,
`N` the number of kept sentence fragments; the `i`-th MCQ's answer is the
`i`-th fragment, that fragment is its first option, and the other three
options are the fixed generic phrases. -/
theorem generate_fallback_mcqs_shape (text : String) (maxQ : Nat) :
    (generate_fallback_mcqs text maxQ).length = min maxQ (fallbackSentences text).length ∧
    ∀ i, i < (generate_fallback_mcqs text maxQ).length →
      ((generate_fallback_mcqs text maxQ).getD i default).answer =
        some ((fallbackSentences text).getD i "") ∧
      ((generate_fallback_mcqs text maxQ).getD i default).options =
        some [(fallbackSentences text).getD i "",
              "A different concept from the text",
              "An alternative interpretation", "Related information"] := by
  set sents := fallbackSentences text with hsents
  have hlen1 : ((sents.take maxQ).map mkFallbackMCQ).length ≤ maxQ := by
    simp [List.length_take]
  have houter : (((sents.take maxQ).map mkFallbackMCQ).take maxQ) =
      ((sents.take maxQ).map mkFallbackMCQ) := List.take_of_length_le hlen1
  have hdef : generate_fallback_mcqs text maxQ = (sents.take maxQ).map mkFallbackMCQ := by
    simp only [generate_fallback_mcqs, ← hsents, houter]
  constructor
  · rw [hdef]; simp [List.length_take, Nat.min_comm]
  · intro i hi
    rw [hdef] at hi ⊢
    simp only [List.length_map, List.length_take] at hi
    have hi1 : i < (sents.take maxQ).length := by simp [List.length_take]; omega
    have hi2 : i < sents.length := by omega
    have hget : ((sents.take maxQ).map mkFallbackMCQ).getD i default =
        mkFallbackMCQ (sents.getD i "") := by
      rw [List.getD_eq_getElem _ _ (by simpa using hi1), List.getD_eq_getElem _ _ hi2]
      simp [List.getElem_take]
    rw [hget]
    exact ⟨rfl, rfl⟩

/-- Sample text with two keepable fragments, for witnesses. -/
def sampleText : String :=
  "This first sentence is certainly long enough to keep. Tiny. This second sentence is also long enough to keep!"

theorem generate_fallback_mcqs_shape_witness :
    (generate_fallback_mcqs sampleText 5).length = min 5 (fallbackSentences sampleText).length ∧
    ((generate_fallback_mcqs sampleText 5).getD 0 default).answer =
      some ((fallbackSentences sampleText).getD 0 "") ∧
    ((generate_fallback_mcqs sampleText 5).getD 0 default).options =
      some [(fallbackSentences sampleText).getD 0 "",
            "A different concept from the text",
            "An alternative interpretation", "Related information"] := by
  have h := generate_fallback_mcqs_shape sampleText 5
  exact ⟨h.1, (h.2 0 (by decide)).1, (h.2 0 (by decide)).2⟩

/-! ### C3 -/

/-- 50 characters of period-separated one-letter fragments: long enough to
pass the length gate, but no fragment survives the fallback generator's
20-character filter. -/
def degenerateText : String :=
  "a.a.a.a.a.a.a.a.a.a.a.a.a.a.a.a.a.a.a.a.a.a.a.a.a."

/-- C3 (counterexample): the claim says `make_mcqs` returns `[]` only when
the trimmed text is shorter than 50 characters.  On a 50-character text of
tiny fragments with no credential configured, the fallback path returns
`[]` although the trimmed length is 50. -/
theorem make_mcqs_empty_on_long_degenerate_text :
    make_mcqs degenerateText "English" 5 false (.error ()) (fun _ => ItemResp.raise) false =
      some [] ∧
    (pyStrip degenerateText).length = 50 := by
  exact ⟨by decide, by decide⟩

theorem fallback_empty_iff (text : String) (n : Nat) (hn : 1 ≤ n)
    (h : generate_fallback_mcqs text n = []) : fallbackSentences text = [] := by
  simp only [generate_fallback_mcqs] at h
  rcases List.take_eq_nil_iff.mp h with h0 | hmap
  · omega
  · rcases List.map_eq_nil_iff.mp hmap |> List.take_eq_nil_iff.mp with h0 | hs
    · omega
    · exact hs

/-- C3 (amended): whenever `make_mcqs` returns a value at all, that value
is `[]` only when the trimmed text is shorter than 50 characters, or when
the fallback generator ran on a (processed) text none of whose sentence
fragments exceeds 20 characters after trimming. -/
theorem make_mcqs_empty_characterization (text language : String) (n : Nat)
    (hasKey : Bool) (genResp : Except Unit (List MCQDict))
    (tOracle : Nat → ItemResp) (tBatchFail : Bool)
    (hn : 1 ≤ n)
    (h : make_mcqs text language n hasKey genResp tOracle tBatchFail = some []) :
    (pyStrip text).length < 50 ∨ fallbackSentences (processText text) = [] := by
  by_cases h1 : (pyStrip text).length < 50
  · exact Or.inl h1
  · right
    simp only [make_mcqs, if_neg h1] at h
    by_cases h2 : hasKey
    · simp only [h2, not_true, if_neg (by simp : ¬ (False : Prop))] at h
      rcases hg : generate_english_mcqs genResp n with _ | english
      · rw [hg] at h; simp at h
      · rw [hg] at h
        simp only at h
        by_cases h3 : english = []
        · rw [if_pos h3] at h
          exact fallback_empty_iff _ n hn (Option.some.inj h)
        · rw [if_neg h3] at h
          by_cases h4 : pyLower language = "english"
          · rw [if_pos h4] at h
            have := Option.some.inj h
            rcases List.take_eq_nil_iff.mp this with h0 | h0
            · omega
            · exact absurd h0 h3
          · rw [if_neg h4] at h
            by_cases h5 : translate_mcqs_to_language english language tOracle tBatchFail ≠ []
            · rw [if_pos h5] at h
              have := Option.some.inj h
              rcases List.take_eq_nil_iff.mp this with h0 | h0
              · omega
              · exact absurd h0 h5
            · rw [if_neg h5] at h
              have := Option.some.inj h
              rcases List.take_eq_nil_iff.mp this with h0 | h0
              · omega
              · exact absurd h0 h3
    · simp only [h2, if_neg, not_false_iff, if_pos] at h
      exact fallback_empty_iff _ n hn (Option.some.inj h)

theorem make_mcqs_empty_characterization_witness :
    1 ≤ 5 ∧
    ((pyStrip "tiny").length < 50 ∨ fallbackSentences (processText "tiny") = []) := by
  refine ⟨by omega, ?_⟩
  exact make_mcqs_empty_characterization "tiny" "English" 5 false (.error ())
    (fun _ => ItemResp.raise) false (by omega) (by decide)

/-! ### C4 -/

/-- A raw MCQ rejected by the validator (only two raw options). -/
def rawTwoOptions : MCQDict := ⟨some "Q?", some "A", some ["A", "B"], none⟩

/-- C4 (counterexample): the claim says the English Generator returns
exactly the validator-accepted elements of the parsed array, in order,
capped at the requested count.  The code caps the raw array *before*
validation, so with `[invalid, valid]` and count 1 it returns `[]` even
though the accepted elements capped at 1 form a singleton. -/
theorem generate_english_mcqs_caps_before_validation :
    generate_english_mcqs (.ok [rawTwoOptions, rawParis]) 1 = some [] ∧
    (acceptedOf [rawTwoOptions, rawParis]).take 1 ≠ [] := by
  exact ⟨by decide, by decide⟩

theorem validateLoop_eq_acceptedOf (l : List MCQDict)
    (hterm : ∀ m ∈ l, validate_mcq m ≠ none) :
    validateLoop l = some (acceptedOf l) := by
  induction l with
  | nil => rfl
  | cons m rest ih =>
    have hm := hterm m (List.mem_cons_self m rest)
    have hrest : ∀ x ∈ rest, validate_mcq x ≠ none :=
      fun x hx => hterm x (List.mem_cons_of_mem m hx)
    rcases hv : validate_mcq m with _ | v
    · exact absurd hv hm
    · rcases v with _ | v'
      · simp only [validateLoop, hv, acceptedOf, List.filterMap_cons]
        exact ih hrest
      · simp only [validateLoop, hv, acceptedOf, List.filterMap_cons, ih hrest]
        rfl

/-- C4 (amended): on a successfully parsed array the English Generator
returns the validator-accepted elements *among the first `max_questions`
raw elements*, in their original order (the cap is applied to the raw
array before validation, so each invalid element is dropped individually);
a provider or parse failure yields `[]` instead of an exception. -/
theorem generate_english_mcqs_amended (raws : List MCQDict) (n : Nat)
    (hterm : ∀ m ∈ raws.take n, validate_mcq m ≠ none) :
    generate_english_mcqs (.ok raws) n = some (acceptedOf (raws.take n)) ∧
    generate_english_mcqs (.error ()) n = some [] := by
  exact ⟨validateLoop_eq_acceptedOf _ hterm, rfl⟩

theorem generate_english_mcqs_amended_witness :
    generate_english_mcqs (.ok [rawParis]) 1 = some (acceptedOf ([rawParis].take 1)) ∧
    generate_english_mcqs (.error ()) 1 = some [] :=
  generate_english_mcqs_amended [rawParis] 1 (by decide)

/-! ### C5 -/

theorem translateLoop_length (oracle : Nat → ItemResp) :
    ∀ (l : List MCQDict) (k : Nat), (translateLoop oracle k l).length = l.length := by
  intro l
  induction l with
  | nil => intro k; rfl
  | cons m rest ih => intro k; simp only [translateLoop, List.length_cons, ih]

theorem translateLoop_getD (oracle : Nat → ItemResp) :
    ∀ (l : List MCQDict) (k i : Nat), i < l.length →
      (translateLoop oracle k l).getD i default =
        translateItem (l.getD i default) (oracle (k + i)) := by
  intro l
  induction l with
  | nil => intro k i hi; simp at hi
  | cons m rest ih =>
    intro k i hi
    cases i with
    | zero => simp [translateLoop]
    | succ j =>
      have hj : j < rest.length := by simpa using hi
      have hidx : k + 1 + j = k + (j + 1) := by omega
      simp only [translateLoop, List.getD_cons_succ]
      rw [ih (k + 1) j hj, hidx]

theorem translateItem_cases (m : MCQDict) (r : ItemResp) :
    (∃ t, r = .parsed t ∧ t.question.isSome ∧ t.answer.isSome ∧ t.options.isSome ∧
      (∀ oq tq, m.question = some oq → t.question = some tq → pyLower oq ≠ pyLower tq) ∧
      translateItem m r = t) ∨
    translateItem m r = m := by
  cases r with
  | raise => exact Or.inr rfl
  | parseFail => exact Or.inr rfl
  | parsed t =>
    by_cases hk : t.question.isSome ∧ t.answer.isSome ∧ t.options.isSome
    · rcases hmq : m.question with _ | oq
      · right; simp [translateItem, hk, hmq]
      · rcases htq : t.question with _ | tq
        · rw [htq] at hk; simp at hk
        · by_cases heq : pyLower oq = pyLower tq
          · right; simp [translateItem, hk, hmq, htq, heq]
          · left
            refine ⟨t, rfl, hk.1, hk.2.1, hk.2.2, ?_, ?_⟩
            · intro oq' tq' h1 h2
              rw [htq] at h2
              cases h1; cases h2
              exact heq
            · simp [translateItem, hk, hmq, htq, heq]
    · right; simp [translateItem, hk]

/-- C5: for every non-empty English MCQ list and non-English target, the
Translator's output has the same length; at each index the output is
`translateItem` of the input at that index and that call's oracle response
alone (per-item isolation), and it is either the parsed translated object —
when the response parsed, carries the `question`/`answer`/`options` keys
and its question differs case-insensitively — or the original English MCQ
at the same index; a batch-level exception returns the whole English list
unchanged. -/
theorem translate_mcqs_per_item (mcqs : List MCQDict) (target : String)
    (oracle : Nat → ItemResp)
    (hne : mcqs ≠ []) (hlang : pyLower target ≠ "english") :
    (translate_mcqs_to_language mcqs target oracle false).length = mcqs.length ∧
    (∀ i, i < mcqs.length →
      (translate_mcqs_to_language mcqs target oracle false).getD i default =
        translateItem (mcqs.getD i default) (oracle i)) ∧
    (∀ i, i < mcqs.length →
      (∃ t, oracle i = .parsed t ∧ t.question.isSome ∧ t.answer.isSome ∧ t.options.isSome ∧
        (∀ oq tq, (mcqs.getD i default).question = some oq → t.question = some tq →
          pyLower oq ≠ pyLower tq) ∧
        (translate_mcqs_to_language mcqs target oracle false).getD i default = t) ∨
      (translate_mcqs_to_language mcqs target oracle false).getD i default =
        mcqs.getD i default) ∧
    translate_mcqs_to_language mcqs target oracle true = mcqs := by
  have hguard : ¬ (pyLower target = "english" ∨ mcqs = []) := by
    intro hor; rcases hor with h | h
    · exact hlang h
    · exact hne h
  have hfalse : translate_mcqs_to_language mcqs target oracle false =
      translateLoop oracle 0 mcqs := by
    unfold translate_mcqs_to_language
    rw [if_neg hguard, if_neg (by simp)]
  refine ⟨?_, ?_, ?_, ?_⟩
  · rw [hfalse]; exact translateLoop_length oracle mcqs 0
  · intro i hi
    rw [hfalse]
    have := translateLoop_getD oracle mcqs 0 i hi
    simpa using this
  · intro i hi
    have hitem : (translate_mcqs_to_language mcqs target oracle false).getD i default =
        translateItem (mcqs.getD i default) (oracle i) := by
      rw [hfalse]
      have := translateLoop_getD oracle mcqs 0 i hi
      simpa using this
    rcases translateItem_cases (mcqs.getD i default) (oracle i) with ⟨t, h1, h2, h3, h4, h5, h6⟩ | hsame
    · left; exact ⟨t, h1, h2, h3, h4, h5, by rw [hitem]; exact h6⟩
    · right; rw [hitem]; exact hsame
  · unfold translate_mcqs_to_language
    rw [if_neg hguard, if_pos rfl]

theorem translate_mcqs_per_item_witness :
    (translate_mcqs_to_language [rawParis] "Spanish" (fun _ => ItemResp.parseFail) false).length = 1 ∧
    (translate_mcqs_to_language [rawParis] "Spanish" (fun _ => ItemResp.parseFail) false).getD 0 default =
      translateItem ([rawParis].getD 0 default) ItemResp.parseFail ∧
    translate_mcqs_to_language [rawParis] "Spanish" (fun _ => ItemResp.parseFail) true = [rawParis] := by
  have h := translate_mcqs_per_item [rawParis] "Spanish" (fun _ => ItemResp.parseFail)
    (by decide) (by decide)
  exact ⟨h.1, h.2.1 0 (by decide), h.2.2.2⟩

/-! ### C10 -/

/-- C10: for every non-blank topic the short-script generator never raises
and returns either a sanitized script passing all acceptance checks
(topic contained case-insensitively, 120-180 words inclusive, no banned
phrase) or the deterministic fallback error message — never any other
value; moreover when the first (default) attempt's sanitized script passes,
that script is returned and the second, stricter attempt's outcome is never
consulted.  (At most two attempts is structural: the embedding consumes at
most the two oracle responses `r1`, `r2`.) -/
theorem generate_short_form_script_total (hasKey : Bool)
    (r1 r2 : Except Unit (Option String)) (topic : String)
    (h : pyStrip topic ≠ "") :
    (∃ s, generate_short_form_script hasKey r1 r2 topic = .ok s ∧
      (scriptPasses (pyStrip topic) s = true ∨
       s = build_fallback_short_script (pyStrip topic))) ∧
    (∀ raw1, r1 = .ok raw1 → hasKey = true →
      scriptPasses (pyStrip topic) (sanitize_plain_text_script raw1) = true →
      generate_short_form_script hasKey r1 r2 topic =
        .ok (sanitize_plain_text_script raw1)) := by
  constructor
  · simp only [generate_short_form_script, if_neg h]
    by_cases hk : hasKey
    · simp only [hk, not_true, if_neg (by simp : ¬ (False : Prop))]
      rcases r1 with e1 | raw1
      · exact ⟨_, rfl, Or.inr rfl⟩
      · by_cases hp1 : scriptPasses (pyStrip topic) (sanitize_plain_text_script raw1) = true
        · exact ⟨_, by simp only [hp1, if_pos], Or.inl hp1⟩
        · simp only [if_neg hp1]
          rcases r2 with e2 | raw2
          · exact ⟨_, rfl, Or.inr rfl⟩
          · by_cases hp2 : scriptPasses (pyStrip topic) (sanitize_plain_text_script raw2) = true
            · exact ⟨_, by simp only [hp2, if_pos], Or.inl hp2⟩
            · exact ⟨_, by simp only [if_neg hp2], Or.inr rfl⟩
    · exact ⟨_, by simp [hk], Or.inr rfl⟩
  · intro raw1 hr1 hk hp1
    subst hr1; subst hk
    simp only [generate_short_form_script, if_neg h, not_true,
      if_neg (by simp : ¬ (False : Prop)), hp1, if_pos]

theorem generate_short_form_script_total_witness :
    pyStrip "Photosynthesis" ≠ "" ∧
    generate_short_form_script false (.ok none) (.ok none) "Photosynthesis" =
      .ok (build_fallback_short_script "Photosynthesis") := by
  have h := generate_short_form_script_total false (.ok none) (.ok none)
    "Photosynthesis" (by decide)
  obtain ⟨s, hs, _⟩ := h.1
  exact ⟨by decide, by rfl⟩

/-! ### C7 -/

/-- Invariant of the cleaning/filling state `(cleaned, seen)`: `seen` is the
list of lowercase forms of `cleaned` in order, those lowercase forms are
pairwise distinct, and every kept option is non-empty and free of
denylisted vague phrases. -/
def InvCS (st : List String × List String) : Prop :=
  st.2 = st.1.map pyLower ∧ (st.1.map pyLower).Nodup ∧
  ∀ o ∈ st.1, o ≠ "" ∧ containsVague o = false

theorem InvCS_push (st : List String × List String) (x : String)
    (hInv : InvCS st) (hx : x ≠ "" ∧ containsVague x = false)
    (hnew : pyLower x ∉ st.2) :
    InvCS (st.1 ++ [x], st.2 ++ [pyLower x]) := by
  obtain ⟨hseen, hnd, hprops⟩ := hInv
  refine ⟨?_, ?_, ?_⟩
  · simp [hseen]
  · rw [List.map_append]
    rw [hseen] at hnew
    simp only [List.map_cons, List.map_nil]
    exact List.Nodup.append hnd (List.nodup_singleton _)
      (by simpa [List.disjoint_right] using hnew)
  · intro o ho
    rcases List.mem_append.mp ho with h | h
    · exact hprops o h
    · rcases List.mem_singleton.mp h with rfl
      exact hx

theorem cleanOptions_inv : ∀ (opts : List String) (st : List String × List String),
    InvCS st → InvCS (cleanOptions opts st) := by
  intro opts
  induction opts with
  | nil => intro st hInv; exact hInv
  | cons opt rest ih =>
    intro st hInv
    simp only [cleanOptions]
    split_ifs with h1 h2 h3
    · exact ih st hInv
    · exact ih st hInv
    · exact ih st hInv
    · exact ih _ (InvCS_push st (pyStrip opt) hInv
        ⟨h1, by simpa using h2⟩ h3)

theorem filler_props (q a : String) (i : Nat) :
    generate_meaningful_filler q a i ≠ "" ∧
    containsVague (generate_meaningful_filler q a i) = false := by
  simp only [generate_meaningful_filler]
  split_ifs with h1 h2 h3
  · have hl : fillerPeople.length = 4 := rfl
    rw [hl]
    have h4 : i % 4 = 0 ∨ i % 4 = 1 ∨ i % 4 = 2 ∨ i % 4 = 3 := by omega
    rcases h4 with h | h | h | h <;> rw [h] <;> exact ⟨by decide, by decide⟩
  · have hl : fillerCapitals.length = 4 := rfl
    rw [hl]
    have h4 : i % 4 = 0 ∨ i % 4 = 1 ∨ i % 4 = 2 ∨ i % 4 = 3 := by omega
    rcases h4 with h | h | h | h <;> rw [h] <;> exact ⟨by decide, by decide⟩
  · have hl : fillerYears.length = 4 := rfl
    rw [hl]
    have h4 : i % 4 = 0 ∨ i % 4 = 1 ∨ i % 4 = 2 ∨ i % 4 = 3 := by omega
    rcases h4 with h | h | h | h <;> rw [h] <;> exact ⟨by decide, by decide⟩
  · have hl : fillerGeneric.length = 4 := rfl
    rw [hl]
    have h4 : i % 4 = 0 ∨ i % 4 = 1 ∨ i % 4 = 2 ∨ i % 4 = 3 := by omega
    rcases h4 with h | h | h | h <;> rw [h] <;> exact ⟨by decide, by decide⟩

theorem fillLoop_inv (q a : String) : ∀ (fuel : Nat) (st st' : List String × List String),
    InvCS st → fillLoop q a fuel st = some st' → InvCS st' := by
  intro fuel
  induction fuel with
  | zero =>
    intro st st' hInv h
    simp only [fillLoop] at h
    split_ifs at h
    cases h
    exact hInv
  | succ k ih =>
    intro st st' hInv h
    simp only [fillLoop] at h
    split_ifs at h with hlen hfl
    · exact ih st st' hInv h
    · exact ih _ st' (InvCS_push st _ hInv (filler_props q a st.1.length) hfl) h
    · cases h
      exact hInv

/-- C7: every option of a `validate_mcq`-accepted MCQ — whether kept from
the raw input or synthesized as a filler — is non-empty, its lowercase form
contains no denylisted vague phrase, and the options are pairwise
case-insensitively distinct. -/
theorem validate_mcq_option_quality (raw m : MCQDict) (opts : List String)
    (hAcc : validate_mcq raw = some (some m)) (hOpts : m.options = some opts) :
    (∀ o ∈ opts, o ≠ "" ∧ containsVague o = false) ∧ (opts.map pyLower).Nodup := by
  simp only [validate_mcq] at hAcc
  split_ifs at hAcc
  · simp at hAcc
  · simp at hAcc
  · rcases hfl : fillLoop (pyStrip (raw.question.getD ""))
        (resolveAnswer (pyStrip (raw.answer.getD "")) (raw.options.getD []))
        8 (cleanOptions (raw.options.getD []) ([], [])) with _ | ⟨cleaned2, seen2⟩
    · rw [hfl] at hAcc
      simp at hAcc
    · rw [hfl] at hAcc
      simp only [Option.some.injEq] at hAcc
      have hInv0 : InvCS (([], []) : List String × List String) :=
        ⟨rfl, List.nodup_nil, by simp⟩
      have hInv1 := cleanOptions_inv (raw.options.getD []) _ hInv0
      have hInv2 := fillLoop_inv _ _ 8 _ _ hInv1 hfl
      have hmopts : m.options = some (cleaned2.take 4) := by
        rw [← hAcc]
      rw [hOpts] at hmopts
      have hopts_eq : opts = cleaned2.take 4 := Option.some.inj hmopts
      subst hopts_eq
      obtain ⟨_, hnd, hprops⟩ := hInv2
      constructor
      · intro o ho
        exact hprops o (List.take_subset 4 cleaned2 ho)
      · exact List.Nodup.sublist ((List.take_sublist 4 cleaned2).map pyLower) hnd

theorem validate_mcq_option_quality_witness :
    ("Paris" ≠ "" ∧ containsVague "Paris" = false) ∧
    (((["Paris", "London", "Berlin", "Tokyo"] : List String).map pyLower).Nodup) := by
  have h := validate_mcq_option_quality rawParis rawParis
    ["Paris", "London", "Berlin", "Tokyo"] (by decide) rfl
  exact ⟨h.1 "Paris" (by decide), h.2⟩

/-! ### C8 -/

/-- An MCQ meeting every condition in the claim's "already-valid" list
(trimmed non-empty question and answer, 4 case-insensitively distinct
denylist-free options, answer equal to an option, canonical difficulty) —
but whose first option carries leading whitespace. -/
def mC8 : MCQDict := ⟨some "Q1", some "B1", some [" A1", "B1", "C1", "D1"], some "easy"⟩

/-- C8 (counterexample): the claim's notion of an already-valid MCQ does
not constrain options to be whitespace-trimmed, and on such an input
`validate_mcq` returns a different record (it trims the option), so
idempotence fails as stated. -/
theorem validate_mcq_not_idempotent_on_untrimmed :
    (pyStrip "Q1" = "Q1" ∧ "Q1" ≠ "" ∧ pyStrip "B1" = "B1" ∧ "B1" ≠ "") ∧
    ([" A1", "B1", "C1", "D1"] : List String).length = 4 ∧
    ((([" A1", "B1", "C1", "D1"] : List String).map pyLower).Nodup) ∧
    (containsVague " A1" = false ∧ containsVague "B1" = false ∧
     containsVague "C1" = false ∧ containsVague "D1" = false) ∧
    "B1" ∈ ([" A1", "B1", "C1", "D1"] : List String) ∧
    "easy" ∈ (["easy", "medium", "hard"] : List String) ∧
    validate_mcq mC8 ≠ some (some mC8) := by decide

theorem cleanOptions_clean : ∀ (opts c : List String),
    (∀ o ∈ opts, pyStrip o = o ∧ o ≠ "" ∧ containsVague o = false) →
    ((c ++ opts).map pyLower).Nodup →
    cleanOptions opts (c, c.map pyLower) = (c ++ opts, (c ++ opts).map pyLower) := by
  intro opts
  induction opts with
  | nil => intro c _ _; simp [cleanOptions]
  | cons o rest ih =>
    intro c h hnd
    obtain ⟨ho1, ho2, ho3⟩ := h o (List.mem_cons_self o rest)
    have hrest : ∀ x ∈ rest, pyStrip x = x ∧ x ≠ "" ∧ containsVague x = false :=
      fun x hx => h x (List.mem_cons_of_mem o hx)
    have hnotin : pyLower o ∉ c.map pyLower := by
      rw [List.map_append] at hnd
      have hdisj := (List.nodup_append.mp hnd).2.2
      intro hin
      exact hdisj hin (by simp)
    simp only [cleanOptions, ho1]
    rw [if_neg ho2, if_neg (by simp [ho3]), if_neg hnotin]
    have hstate : (c.map pyLower ++ [pyLower o]) = (c ++ [o]).map pyLower := by
      simp
    rw [hstate]
    have hnd' : (((c ++ [o]) ++ rest).map pyLower).Nodup := by
      simpa [List.append_assoc] using hnd
    rw [ih (c ++ [o]) hrest hnd']
    simp

/-- C8 (amended): validating an MCQ that is already valid in the
data-model sense — with, in addition, every option whitespace-trimmed and
non-empty (as every validator output is) — returns a record identical to
the input. -/
theorem validate_mcq_idempotent (q a d : String) (opts : List String)
    (hq : pyStrip q = q) (hqne : q ≠ "")
    (ha : pyStrip a = a) (hane : a ≠ "")
    (hlen : opts.length = 4)
    (hopts : ∀ o ∈ opts, pyStrip o = o ∧ o ≠ "" ∧ containsVague o = false)
    (hnd : (opts.map pyLower).Nodup)
    (hmem : a ∈ opts)
    (hd : d ∈ (["easy", "medium", "hard"] : List String)) :
    validate_mcq ⟨some q, some a, some opts, some d⟩ =
      some (some ⟨some q, some a, some opts, some d⟩) := by
  have hne : opts ≠ [] := by intro h0; rw [h0] at hlen; simp at hlen
  have hclean : cleanOptions opts ([], []) = (opts, opts.map pyLower) := by
    have := cleanOptions_clean opts [] hopts (by simpa using hnd)
    simpa using this
  have hres : resolveAnswer a opts = a := by
    unfold resolveAnswer; rw [if_pos hmem]
  have hfill : fillLoop q a 8 (opts, opts.map pyLower) = some (opts, opts.map pyLower) :=
    fillLoop_done q a 8 _ (by simp only []; omega)
  have hdiff : deriveDifficulty (pyLower (pyStrip d)) q a = d := by
    simp only [List.mem_cons, List.not_mem_nil, or_false] at hd
    rcases hd with rfl | rfl | rfl
    · simp only [deriveDifficulty]; rw [if_pos (by decide)]; rfl
    · simp only [deriveDifficulty]; rw [if_pos (by decide)]; rfl
    · simp only [deriveDifficulty]; rw [if_pos (by decide)]; rfl
  have htake : opts.take 4 = opts := List.take_of_length_le (le_of_eq hlen)
  simp only [validate_mcq, Option.getD_some, hq, ha, hres, hclean, hfill]
  rw [if_neg (by simp [hqne, hane, hne]), if_neg (by omega)]
  simp only [if_pos hmem, htake, hdiff]

theorem validate_mcq_idempotent_witness :
    validate_mcq ⟨some "Q1", some "B1", some ["A1", "B1", "C1", "D1"], some "easy"⟩ =
      some (some ⟨some "Q1", some "B1", some ["A1", "B1", "C1", "D1"], some "easy"⟩) :=
  validate_mcq_idempotent "Q1" "B1" "easy" ["A1", "B1", "C1", "D1"]
    (by decide) (by decide) (by decide) (by decide) (by decide)
    (by decide) (by decide) (by decide) (by decide)

end Quillium
